import Mathlib

/-!
Shallow embedding of the `usb_manager` crate (sources under `src/`):
`hid_device.rs` (HID report transport), `manager.rs` (device registry)
and `adapter.rs` (hotplug synchronization), together with theorems about
the behaviour of those functions.

Machine integers are modelled as `Nat`, with an explicit `% 2 ^ 32`
wherever the Rust code performs an `as u32` cast.  OS calls
(`CreateFileW`, `HidD_SetOutputReport`, `HidD_GetInputReport`,
`HidD_GetFeature`, `WriteFile`, `ReadFile`) are modelled by oracle
parameters giving the outcome of each call; a Rust panic (an
out-of-bounds index) is a distinct outcome of the embedded function.
-/

namespace UsbManager

/-- `2 ^ 32`: the modulus of a Rust `u32`; `(e) as u32` is `e % U32MOD`. -/
def U32MOD : Nat := 2 ^ 32

/-- `HidDevice` from `hid_device.rs`.  `Uuid` is abstracted as `Nat`,
`OsString` as `String`; the `u16`/`u32` fields become `Nat` (their
numeric values).  The runtime handle (`device_handle`) is not part of the
immutable descriptor data; the handle state is threaded explicitly
through the transport operations below as a `Bool` (`true` = the
`RwLock<Option<HANDLE>>` holds `Some`). -/
structure HidDevice where
  id : Nat
  path : String
  serial : String
  manufacturer : String
  product : String
  vendor_id : Nat
  product_id : Nat
  release : Nat
  usage_page : Nat
  usage : Nat
  input_report_byte_length : Nat
  output_report_byte_length : Nat
  feature_report_byte_length : Nat
deriving Repr, DecidableEq

/-- `Default` for `HidDevice` (`#[derive(Default)]`): all numbers `0`,
all strings empty. -/
def HidDevice.defaultDev : HidDevice :=
  { id := 0, path := "", serial := "", manufacturer := "", product := ""
  , vendor_id := 0, product_id := 0, release := 0
  , usage_page := 0, usage := 0
  , input_report_byte_length := 0
  , output_report_byte_length := 0
  , feature_report_byte_length := 0 }

/-- `HidDevice::new(id, path)`: starts from `Self::default()` and sets
only `path` and `id` (all report byte lengths stay `0`). -/
def HidDevice.new (id : Nat) (path : String) : HidDevice :=
  { HidDevice.defaultDev with id := id, path := path }

/-- Errors a transport operation can return: the `Error` enum of
`lib.rs` plus the two flavours of `anyhow` error the code produces
(`osError` for a `windows` error propagated by `?`, `strErr` for
`bail!("...")` with a literal message). -/
inductive TxError where
  | win32 (code : Nat)
  | notOpen
  | openError
  | notFound
  | dataOverlength
  | osError (code : Nat)
  | strErr (msg : String)
deriving Repr, DecidableEq

/-- Outcome of an embedded fallible Rust function: `Ok`, `Err`, or a
panic (out-of-bounds slice index). -/
inductive TxResult (α : Type) where
  | ok (val : α)
  | fail (e : TxError)
  | panicked
deriving Repr, DecidableEq

/-- `true` exactly on `ok`. -/
def TxResult.isOk {α : Type} : TxResult α → Bool
  | .ok _ => true
  | _ => false

/-- Oracle for one `CreateFileW` attempt inside `open_device`:
the call succeeds, fails with an OS error code (propagated by `?`), or
returns an invalid handle (the `is_invalid` branch, `Error::OpenError`). -/
inductive OpenOutcome where
  | success
  | osFail (code : Nat)
  | invalid
deriving Repr, DecidableEq

/-- `HidDevice::open_device`: on success the handle is stored and
`opened` set (state becomes `true`); on either failure the handle field
is left `None` (state `false`). -/
def open_device (openRes : OpenOutcome) : TxResult Unit × Bool :=
  match openRes with
  | .success => (.ok (), true)
  | .osFail c => (.fail (.osError c), false)
  | .invalid => (.fail (.openError), false)

/-- `HidDevice::check_handle`: reuse the stored handle if present,
otherwise `open_device`. -/
def check_handle (st : Bool) (openRes : OpenOutcome) : TxResult Unit × Bool :=
  if st then (.ok (), true) else open_device openRes

/-- `HidDevice::output_assemble_data(report_id, data, data_len)`:
`send_data = [report_id] ++ data` (built by reverse/push/reverse),
zero-padded at the tail up to `data_len` when shorter.  The Rust
function returns `Ok` unconditionally. -/
def output_assemble_data (report_id : Nat) (data : List Nat) (data_len : Nat) : List Nat :=
  let send_data := report_id :: data
  if send_data.length < data_len then
    send_data ++ List.replicate (data_len - send_data.length) 0
  else send_data

/-- `HidDevice::input_assemble_data(report_id, data_len)`:
`vec![0; data_len]` with byte 0 set to `report_id`.  The write
`read_data[0] = report_id` panics when `data_len = 0`. -/
def input_assemble_data (report_id : Nat) (data_len : Nat) : TxResult (List Nat) :=
  match data_len with
  | 0 => .panicked
  | n + 1 => .ok (report_id :: List.replicate n 0)

/-- `HidDevice::set_output_report(report_id, data)`.
`st` is the handle state on entry, `openRes` the `CreateFileW` oracle,
`osOk` the `HidD_SetOutputReport` result, `ec` the `GetLastError` value.
Returns the embedded `Result<()>` together with the handle state on
exit.  Note the source closes the device only on the success path; the
`HidD_SetOutputReport`-failure `bail!` returns with the handle open. -/
def set_output_report (d : HidDevice) (st : Bool) (openRes : OpenOutcome)
    (osOk : Bool) (ec : Nat) (report_id : Nat) (data : List Nat) :
    TxResult Unit × Bool :=
  if (data.length + 1) % U32MOD > d.output_report_byte_length then
    (.fail .dataOverlength, st)
  else
    match check_handle st openRes with
    | (.ok _, st1) =>
        let _send_data := output_assemble_data report_id data d.output_report_byte_length
        if osOk then
          -- close_device, then Ok(())
          (.ok (), false)
        else (.fail (.win32 ec), st1)
    | (.fail e, st1) => (.fail e, st1)
    | (.panicked, st1) => (.panicked, st1)

/-- `HidDevice::get_input_report(report_id, data_len)`.
`resp` is the content of the length-`input_report_byte_length` buffer
after a successful `HidD_GetInputReport` call.  On success the source
closes the device, then drops byte 0 when it equals `report_id`, then
truncates to `data_len`.  The OS-failure `bail!` returns with the
handle open. -/
def get_input_report (d : HidDevice) (st : Bool) (openRes : OpenOutcome)
    (osOk : Bool) (ec : Nat) (resp : List Nat) (report_id : Nat) (data_len : Nat) :
    TxResult (List Nat) × Bool :=
  if (data_len + 1) % U32MOD > d.input_report_byte_length then
    (.fail .dataOverlength, st)
  else
    match check_handle st openRes with
    | (.ok _, st1) =>
        match input_assemble_data report_id d.input_report_byte_length with
        | .ok _send_data =>
            if osOk then
              -- close_device happens before the byte-0 test
              match resp with
              | [] => (.panicked, false)
              | b :: rest =>
                  let stripped := if b == report_id then rest else b :: rest
                  (.ok (stripped.take data_len), false)
            else (.fail (.win32 ec), st1)
        | .fail e => (.fail e, st1)
        | .panicked => (.panicked, st1)
    | (.fail e, st1) => (.fail e, st1)
    | (.panicked, st1) => (.panicked, st1)

/-- `HidDevice::get_feature_report(report_id, data_len)`: same shape as
`get_input_report` with `feature_report_byte_length` and
`HidD_GetFeature`. -/
def get_feature_report (d : HidDevice) (st : Bool) (openRes : OpenOutcome)
    (osOk : Bool) (ec : Nat) (resp : List Nat) (report_id : Nat) (data_len : Nat) :
    TxResult (List Nat) × Bool :=
  if (data_len + 1) % U32MOD > d.feature_report_byte_length then
    (.fail .dataOverlength, st)
  else
    match check_handle st openRes with
    | (.ok _, st1) =>
        match input_assemble_data report_id d.feature_report_byte_length with
        | .ok _send_data =>
            if osOk then
              match resp with
              | [] => (.panicked, false)
              | b :: rest =>
                  let stripped := if b == report_id then rest else b :: rest
                  (.ok (stripped.take data_len), false)
            else (.fail (.win32 ec), st1)
        | .fail e => (.fail e, st1)
        | .panicked => (.panicked, st1)
    | (.fail e, st1) => (.fail e, st1)
    | (.panicked, st1) => (.panicked, st1)

/-- `HidDevice::write(report_id, data)`.  `write_len` is the byte count
`WriteFile` reports.  The source closes the device after a successful
`WriteFile` and only then checks `write_len <= 0` (`bail!("write
error")`); a `WriteFile` failure returns with the handle open. -/
def HidDevice.write (d : HidDevice) (st : Bool) (openRes : OpenOutcome)
    (osOk : Bool) (ec : Nat) (write_len : Nat) (report_id : Nat) (data : List Nat) :
    TxResult Nat × Bool :=
  if (data.length + 1) % U32MOD > d.output_report_byte_length then
    (.fail .dataOverlength, st)
  else
    match check_handle st openRes with
    | (.ok _, st1) =>
        let _send_data := output_assemble_data report_id data d.output_report_byte_length
        if osOk then
          -- close_device, then the zero-length check
          if write_len == 0 then (.fail (.strErr "write error"), false)
          else (.ok write_len, false)
        else (.fail (.win32 ec), st1)
    | (.fail e, st1) => (.fail e, st1)
    | (.panicked, st1) => (.panicked, st1)

/-- `HidDevice::read_continuous(report_id, data_len)`.  `read_len` is the
byte count `ReadFile` reports, `resp` the buffer content after a
successful `ReadFile`.  No `close_device` anywhere in this function:
the handle stays open on success (caller-driven loop) and on every
error path after acquisition. -/
def read_continuous (d : HidDevice) (st : Bool) (openRes : OpenOutcome)
    (osOk : Bool) (ec : Nat) (read_len : Nat) (resp : List Nat)
    (report_id : Nat) (data_len : Nat) :
    TxResult (List Nat) × Bool :=
  if (data_len + 1) % U32MOD > d.input_report_byte_length then
    (.fail .dataOverlength, st)
  else
    match check_handle st openRes with
    | (.ok _, st1) =>
        match input_assemble_data report_id d.input_report_byte_length with
        | .ok _send_data =>
            if osOk then
              if read_len == 0 then (.fail (.strErr "read error"), st1)
              else
                match resp with
                | [] => (.panicked, st1)
                | b :: rest =>
                    let stripped := if b == report_id then rest else b :: rest
                    (.ok (stripped.take data_len), st1)
            else (.fail (.win32 ec), st1)
        | .fail e => (.fail e, st1)
        | .panicked => (.panicked, st1)
    | (.fail e, st1) => (.fail e, st1)
    | (.panicked, st1) => (.panicked, st1)

/-- `HidDevice::read(report_id, data_len)`: one `read_continuous` call;
on `Ok` it closes the device, on `Err` the `?` propagates without
closing. -/
def HidDevice.read (d : HidDevice) (st : Bool) (openRes : OpenOutcome)
    (osOk : Bool) (ec : Nat) (read_len : Nat) (resp : List Nat)
    (report_id : Nat) (data_len : Nat) :
    TxResult (List Nat) × Bool :=
  match read_continuous d st openRes osOk ec read_len resp report_id data_len with
  | (.ok v, _) => (.ok v, false)
  | (r, st1) => (r, st1)

/-! ## Registry (`manager.rs`) and hotplug synchronization (`adapter.rs`) -/

/-- The `DashMap<Uuid, HidDevice>` of `Manager`, modelled as an
association list with unique keys (every reachable registry has
`Nodup` keys; theorems that need it take that as a hypothesis). -/
abbrev Registry := List (Nat × HidDevice)

/-- `DashMap::contains_key`. -/
def containsD (m : Registry) (k : Nat) : Bool :=
  m.any (fun p => p.1 == k)

/-- `DashMap::get(key).map(|v| v.clone())`: the first entry with key `k`. -/
def getD (m : Registry) (k : Nat) : Option HidDevice :=
  (m.find? (fun p => p.1 == k)).map (·.2)

/-- `DashMap::insert`: replace the entry for `k` in place if present,
otherwise append (last write wins). -/
def insertD (m : Registry) (k : Nat) (v : HidDevice) : Registry :=
  match m with
  | [] => [(k, v)]
  | p :: rest => if p.1 == k then (k, v) :: rest else p :: insertD rest k v

/-- `DashMap::remove`: remove and return the first entry with key `k`,
`none` (and the map unchanged) when absent. -/
def removeD (m : Registry) (k : Nat) : Option (Nat × HidDevice) × Registry :=
  match m with
  | [] => (none, [])
  | p :: rest =>
      if p.1 == k then (some p, rest)
      else
        let r := removeD rest k
        (r.1, p :: r.2)

/-- `Manager::device_keys`. -/
def keysD (m : Registry) : List Nat := m.map (·.1)

/-- `Manager::devices` (the values snapshot). -/
def valuesD (m : Registry) : List HidDevice := m.map (·.2)

/-- `CentralEvent` from `lib.rs`. -/
inductive CentralEvent where
  | DeviceAdd (id : Nat)
  | DeviceRemove (device : HidDevice)
deriving Repr, DecidableEq

/-- `Manager::add_devices(key, device)`: inserts unconditionally (the
duplicate check is commented out in the source) and returns `Ok(())`.
State-passing embedding: the `Result<()>` and the updated registry. -/
def Manager.add_devices (m : Registry) (key : Nat) (device : HidDevice) :
    TxResult Unit × Registry :=
  (.ok (), insertD m key device)

/-- `Manager::remove_device(key)`. -/
def Manager.remove_device (m : Registry) (key : Nat) :
    Option (Nat × HidDevice) × Registry :=
  removeD m key

/-- `Manager::device(key)`: cloned lookup, no mutation. -/
def Manager.device (m : Registry) (key : Nat) : Option HidDevice :=
  getD m key

/-- `Adapter::peripheral(id)`:
`self.manager.device(id).ok_or(Error::NotFound)`.  The registry is
passed through unchanged (the method takes `&self` and only reads). -/
def Adapter.peripheral (m : Registry) (id : Nat) :
    TxResult HidDevice × Registry :=
  (match Manager.device m id with
   | some d => .ok d
   | none => .fail .notFound, m)

/-- The `for item in added_devices` loop of `Adapter::usb_device_change`:
insert each device and emit `DeviceAdd(id)`, in scan order. -/
def addPhase (m : Registry) (added : List HidDevice) :
    Registry × List CentralEvent :=
  match added with
  | [] => (m, [])
  | item :: rest =>
      let m1 := (Manager.add_devices m item.id item).2
      let r := addPhase m1 rest
      (r.1, CentralEvent.DeviceAdd item.id :: r.2)

/-- The `for key in removed_keys` loop of `Adapter::usb_device_change`:
remove each key; emit `DeviceRemove(descriptor)` when the removal
returned an entry, `continue` silently when it returned `None`. -/
def removePhase (m : Registry) (ks : List Nat) :
    Registry × List CentralEvent :=
  match ks with
  | [] => (m, [])
  | key :: rest =>
      match Manager.remove_device m key with
      | (some kv, m1) =>
          let r := removePhase m1 rest
          (r.1, CentralEvent.DeviceRemove kv.2 :: r.2)
      | (none, m1) => removePhase m1 rest

/-- The `added_devices` filter of `Adapter::usb_device_change`:
devices whose id is not yet registered and whose usage page is
`0xff00`, computed against the registry before any insertion. -/
def ucAdded (m : Registry) (current_device : List HidDevice) : List HidDevice :=
  current_device.filter (fun u => !containsD m u.id && u.usage_page == 0xff00)

/-- Registry state after the add loop of `Adapter::usb_device_change`. -/
def ucAfterAdd (m : Registry) (current_device : List HidDevice) : Registry :=
  (addPhase m (ucAdded m current_device)).1

/-- `removed_keys` of `Adapter::usb_device_change`: keys of the
registry (after the add loop) that are not among the ids of the
*unfiltered* scan (`new_key` is built from `current_device` before any
usage-page filter). -/
def ucRemovedKeys (m : Registry) (current_device : List HidDevice) : List Nat :=
  let new_key := current_device.map (·.id)
  (keysD (ucAfterAdd m current_device)).filter (fun u => !new_key.contains u)

/-- `Adapter::usb_device_change`, given the descriptor list a successful
`all_hid_device()` returned: the updated registry and the emitted
events, adds first then removals. -/
def usb_device_change (m : Registry) (current_device : List HidDevice) :
    Registry × List CentralEvent :=
  let r1 := addPhase m (ucAdded m current_device)
  let r2 := removePhase r1.1 (ucRemovedKeys m current_device)
  (r2.1, r1.2 ++ r2.2)

/-- The seed loop of `Adapter::start`: for each enumerated device, skip
it unless `usage_page == 0xff00`, otherwise `add_devices` (no events). -/
def Adapter.start_seed (m : Registry) (scan : List HidDevice) : Registry :=
  match scan with
  | [] => m
  | item :: rest =>
      if item.usage_page == 0xff00 then
        Adapter.start_seed (Manager.add_devices m item.id item).2 rest
      else Adapter.start_seed m rest

/-- A sequence of hotplug-triggered synchronization passes applied to a
registry (each with the device list its enumeration returned). -/
def runScans (m : Registry) (scans : List (List HidDevice)) : Registry :=
  match scans with
  | [] => m
  | s :: rest => runScans (usb_device_change m s).1 rest

/-! ## Concrete fixtures used by counterexamples and witnesses -/

/-- A descriptor like the one the crate's tests look for: all three
report byte lengths 65, managed usage page. -/
def dev65 : HidDevice :=
  { HidDevice.defaultDev with
      id := 1, usage_page := 0xff00
    , input_report_byte_length := 65
    , output_report_byte_length := 65
    , feature_report_byte_length := 65 }

/-- A managed-page descriptor with id 1. -/
def devManaged : HidDevice :=
  { HidDevice.defaultDev with id := 1, usage_page := 0xff00 }

/-- A descriptor sharing container id 1 but on a different usage page
(e.g. another interface of the same physical device). -/
def devUnmanaged : HidDevice :=
  { HidDevice.defaultDev with id := 1, usage_page := 1 }

/-- An unmanaged-page descriptor with a distinct id. -/
def devOther : HidDevice :=
  { HidDevice.defaultDev with id := 2, usage_page := 1 }

/-! ## Registry lemmas -/

theorem containsD_iff {m : Registry} {k : Nat} :
    containsD m k = true ↔ k ∈ keysD m := by
  simp only [containsD, keysD, List.any_eq_true, List.mem_map, beq_iff_eq]

theorem containsD_eq_false_iff {m : Registry} {k : Nat} :
    containsD m k = false ↔ k ∉ keysD m := by
  rw [← Bool.not_eq_true, not_iff_not]
  exact containsD_iff

theorem getD_insertD_self (m : Registry) (k : Nat) (v : HidDevice) :
    getD (insertD m k v) k = some v := by
  induction m with
  | nil => simp [insertD, getD]
  | cons p rest ih =>
      obtain ⟨pk, pv⟩ := p
      by_cases hp : pk = k
      · subst hp; simp [insertD, getD]
      · simp [insertD, getD, hp] at ih ⊢
        exact ih

theorem getD_insertD_other {m : Registry} {k k' : Nat} (v : HidDevice)
    (h : k' ≠ k) : getD (insertD m k v) k' = getD m k' := by
  induction m with
  | nil => simp [insertD, getD, Ne.symm h]
  | cons p rest ih =>
      obtain ⟨pk, pv⟩ := p
      by_cases hp : pk = k
      · subst hp; simp [insertD, getD, Ne.symm h]
      · by_cases hp' : pk = k'
        · subst hp'; simp [insertD, getD, hp]
        · simp [insertD, getD, hp, hp'] at ih ⊢
          exact ih

theorem mem_keysD_insertD {m : Registry} {k k' : Nat} {v : HidDevice} :
    k' ∈ keysD (insertD m k v) ↔ k' = k ∨ k' ∈ keysD m := by
  induction m with
  | nil => simp [insertD, keysD]
  | cons p rest ih =>
      obtain ⟨pk, pv⟩ := p
      by_cases hp : pk = k
      · subst hp; simp [insertD, keysD]
      · have hne : (pk == k) = false := by simp [hp]
        simp only [insertD, hne, Bool.false_eq_true, if_neg, not_false_iff,
          keysD, List.map_cons, List.mem_cons]
        simp only [keysD] at ih
        rw [ih]
        tauto

theorem containsD_insertD_self {m : Registry} {k : Nat} {v : HidDevice} :
    containsD (insertD m k v) k = true :=
  containsD_iff.mpr (mem_keysD_insertD.mpr (Or.inl rfl))

theorem containsD_insertD_of_contains {m : Registry} {k k' : Nat} {v : HidDevice}
    (h : containsD m k' = true) : containsD (insertD m k v) k' = true :=
  containsD_iff.mpr (mem_keysD_insertD.mpr (Or.inr (containsD_iff.mp h)))

theorem nodup_keysD_insertD {m : Registry} {k : Nat} {v : HidDevice}
    (h : (keysD m).Nodup) : (keysD (insertD m k v)).Nodup := by
  induction m with
  | nil => simp [insertD, keysD]
  | cons p rest ih =>
      obtain ⟨pk, pv⟩ := p
      simp only [keysD, List.map_cons, List.nodup_cons] at h
      by_cases hp : pk = k
      · subst hp
        simp only [insertD, beq_self_eq_true, if_pos, keysD, List.map_cons,
          List.nodup_cons]
        exact ⟨h.1, h.2⟩
      · have : (pk == k) = false := by simp [hp]
        simp only [insertD, this, Bool.false_eq_true, if_neg, not_false_iff,
          keysD, List.map_cons, List.nodup_cons]
        refine ⟨?_, ih h.2⟩
        intro hmem
        rcases mem_keysD_insertD.mp hmem with h1 | h1
        · exact hp h1
        · exact h.1 h1

theorem mem_valuesD_insertD {m : Registry} {k : Nat} {v d : HidDevice}
    (h : d ∈ valuesD (insertD m k v)) : d = v ∨ d ∈ valuesD m := by
  induction m with
  | nil => simpa [insertD, valuesD] using h
  | cons p rest ih =>
      obtain ⟨pk, pv⟩ := p
      by_cases hp : pk = k
      · subst hp
        simp [insertD, valuesD] at h ⊢
        tauto
      · simp [insertD, valuesD, hp] at h ⊢
        rcases h with h | h
        · tauto
        · rcases ih (by simpa [valuesD] using h) with h1 | h1
          · exact Or.inl h1
          · simp [valuesD] at h1; tauto

theorem removeD_snd_sublist (m : Registry) (k : Nat) :
    (removeD m k).2.Sublist m := by
  induction m with
  | nil => simp [removeD]
  | cons p rest ih =>
      obtain ⟨pk, pv⟩ := p
      by_cases hp : pk = k
      · subst hp
        simp only [removeD, beq_self_eq_true, if_pos]
        exact List.sublist_cons_self _ rest
      · have : (pk == k) = false := by simp [hp]
        simp only [removeD, this, Bool.false_eq_true, if_neg, not_false_iff]
        exact ih.cons₂ _

theorem removeD_of_not_contains {m : Registry} {k : Nat}
    (h : containsD m k = false) : removeD m k = (none, m) := by
  induction m with
  | nil => simp [removeD]
  | cons p rest ih =>
      obtain ⟨pk, pv⟩ := p
      simp only [containsD, List.any_cons, Bool.or_eq_false_iff] at h
      have h1 : pk ≠ k := by simpa using h.1
      have h2 := ih (by simpa [containsD] using h.2)
      simp [removeD, h1, h2]

theorem removeD_fst_eq_find? (m : Registry) (k : Nat) :
    (removeD m k).1 = m.find? (fun p => p.1 == k) := by
  induction m with
  | nil => simp [removeD]
  | cons p rest ih =>
      obtain ⟨pk, pv⟩ := p
      by_cases hp : pk = k
      · subst hp; simp [removeD]
      · simp [removeD, hp, ih]

theorem getD_eq_map_removeD_fst (m : Registry) (k : Nat) :
    getD m k = ((removeD m k).1).map (·.2) := by
  rw [removeD_fst_eq_find?]; rfl

theorem removeD_fst_key {m : Registry} {k : Nat} {p : Nat × HidDevice}
    (h : (removeD m k).1 = some p) : p.1 = k := by
  rw [removeD_fst_eq_find?] at h
  have := List.find?_some h
  simpa using this

theorem containsD_removeD_self {m : Registry} {k : Nat}
    (h : (keysD m).Nodup) : containsD (removeD m k).2 k = false := by
  induction m with
  | nil => simp [removeD, containsD]
  | cons p rest ih =>
      obtain ⟨pk, pv⟩ := p
      simp only [keysD, List.map_cons, List.nodup_cons] at h
      by_cases hp : pk = k
      · subst hp
        simp only [removeD, beq_self_eq_true, if_pos]
        exact containsD_eq_false_iff.mpr h.1
      · have hne : (pk == k) = false := by simp [hp]
        simp only [removeD, hne, Bool.false_eq_true, if_neg, not_false_iff,
          containsD, List.any_cons]
        simp only [containsD] at ih
        simp [hp, ih h.2]

theorem containsD_removeD_other {m : Registry} {k k' : Nat} (h : k' ≠ k) :
    containsD (removeD m k).2 k' = containsD m k' := by
  induction m with
  | nil => simp [removeD]
  | cons p rest ih =>
      obtain ⟨pk, pv⟩ := p
      by_cases hp : pk = k
      · subst hp
        simp [removeD, containsD, Ne.symm h]
      · simp [removeD, containsD, hp] at ih ⊢
        rw [ih]

theorem getD_removeD_other {m : Registry} {k k' : Nat} (h : k' ≠ k) :
    getD (removeD m k).2 k' = getD m k' := by
  induction m with
  | nil => simp [removeD]
  | cons p rest ih =>
      obtain ⟨pk, pv⟩ := p
      by_cases hp : pk = k
      · subst hp
        simp [removeD, getD, Ne.symm h]
      · by_cases hp' : pk = k'
        · subst hp'; simp [removeD, getD, hp]
        · simp [removeD, getD, hp, hp'] at ih ⊢
          exact ih

theorem nodup_keysD_removeD {m : Registry} {k : Nat}
    (h : (keysD m).Nodup) : (keysD (removeD m k).2).Nodup := by
  have hs := (removeD_snd_sublist m k).map (fun p => p.1)
  simp only [keysD] at h ⊢
  exact hs.nodup h

theorem mem_valuesD_removeD {m : Registry} {k : Nat} {d : HidDevice}
    (h : d ∈ valuesD (removeD m k).2) : d ∈ valuesD m := by
  have hs := (removeD_snd_sublist m k).map (fun p => p.2)
  simp only [valuesD] at h ⊢
  exact hs.subset h

theorem mem_keysD_removeD {m : Registry} {k k' : Nat}
    (h : k' ∈ keysD (removeD m k).2) : k' ∈ keysD m := by
  have hs := (removeD_snd_sublist m k).map (fun p => p.1)
  simp only [keysD] at h ⊢
  exact hs.subset h

/-! ## Synchronization-pass lemmas -/

theorem addPhase_snd (m : Registry) (l : List HidDevice) :
    (addPhase m l).2 = l.map (fun u => CentralEvent.DeviceAdd u.id) := by
  induction l generalizing m with
  | nil => simp [addPhase]
  | cons u rest ih => simp [addPhase, Manager.add_devices, ih]

theorem addPhase_contains_mono {m : Registry} {l : List HidDevice} {k : Nat}
    (h : containsD m k = true) : containsD (addPhase m l).1 k = true := by
  induction l generalizing m with
  | nil => simpa [addPhase] using h
  | cons u rest ih =>
      simp only [addPhase, Manager.add_devices]
      exact ih (containsD_insertD_of_contains h)

theorem addPhase_contains_of_mem {m : Registry} {l : List HidDevice}
    {u : HidDevice} (h : u ∈ l) : containsD (addPhase m l).1 u.id = true := by
  induction l generalizing m with
  | nil => cases h
  | cons v rest ih =>
      simp only [addPhase, Manager.add_devices]
      rcases List.mem_cons.mp h with h1 | h1
      · subst h1
        exact addPhase_contains_mono containsD_insertD_self
      · exact ih h1

theorem mem_keysD_addPhase {m : Registry} {l : List HidDevice} {k : Nat}
    (h : k ∈ keysD (addPhase m l).1) : k ∈ keysD m ∨ k ∈ l.map (·.id) := by
  induction l generalizing m with
  | nil => exact Or.inl (by simpa [addPhase] using h)
  | cons u rest ih =>
      simp only [addPhase, Manager.add_devices] at h
      rcases ih h with h1 | h1
      · rcases mem_keysD_insertD.mp h1 with h2 | h2
        · exact Or.inr (by simp [h2])
        · exact Or.inl h2
      · exact Or.inr (by simp only [List.map_cons, List.mem_cons]; exact Or.inr h1)

theorem nodup_keysD_addPhase {m : Registry} {l : List HidDevice}
    (h : (keysD m).Nodup) : (keysD (addPhase m l).1).Nodup := by
  induction l generalizing m with
  | nil => simpa [addPhase] using h
  | cons u rest ih =>
      simp only [addPhase, Manager.add_devices]
      exact ih (nodup_keysD_insertD h)

theorem mem_valuesD_addPhase {m : Registry} {l : List HidDevice} {d : HidDevice}
    (h : d ∈ valuesD (addPhase m l).1) : d ∈ valuesD m ∨ d ∈ l := by
  induction l generalizing m with
  | nil => exact Or.inl (by simpa [addPhase] using h)
  | cons u rest ih =>
      simp only [addPhase, Manager.add_devices] at h
      rcases ih h with h1 | h1
      · rcases mem_valuesD_insertD h1 with h2 | h2
        · exact Or.inr (by simp [h2])
        · exact Or.inl h2
      · exact Or.inr (List.mem_cons_of_mem u h1)

theorem removePhase_contains_other {m : Registry} {ks : List Nat} {k : Nat}
    (h : k ∉ ks) : containsD (removePhase m ks).1 k = containsD m k := by
  induction ks generalizing m with
  | nil => simp [removePhase]
  | cons key rest ih =>
      have hne : k ≠ key := fun he => h (he ▸ List.mem_cons_self key rest)
      have hrest : k ∉ rest := fun hr => h (List.mem_cons_of_mem key hr)
      simp only [removePhase, Manager.remove_device]
      rcases hfst : (removeD m key).1 with _ | kv
      · have : removeD m key = (none, (removeD m key).2) := by
          rw [← hfst]
        rw [this]
        rw [ih hrest, containsD_removeD_other hne]
      · have : removeD m key = (some kv, (removeD m key).2) := by
          rw [← hfst]
        rw [this]
        simp only
        rw [ih hrest, containsD_removeD_other hne]

theorem removePhase_getD_other {m : Registry} {ks : List Nat} {k : Nat}
    (h : k ∉ ks) : getD (removePhase m ks).1 k = getD m k := by
  induction ks generalizing m with
  | nil => simp [removePhase]
  | cons key rest ih =>
      have hne : k ≠ key := fun he => h (he ▸ List.mem_cons_self key rest)
      have hrest : k ∉ rest := fun hr => h (List.mem_cons_of_mem key hr)
      simp only [removePhase, Manager.remove_device]
      rcases hfst : (removeD m key).1 with _ | kv
      · have : removeD m key = (none, (removeD m key).2) := by rw [← hfst]
        rw [this]
        rw [ih hrest, getD_removeD_other hne]
      · have : removeD m key = (some kv, (removeD m key).2) := by rw [← hfst]
        rw [this]
        simp only
        rw [ih hrest, getD_removeD_other hne]

theorem removePhase_contains_mem {m : Registry} {ks : List Nat} {k : Nat}
    (hm : (keysD m).Nodup) (hks : ks.Nodup) (h : k ∈ ks) :
    containsD (removePhase m ks).1 k = false := by
  induction ks generalizing m with
  | nil => cases h
  | cons key rest ih =>
      simp only [List.nodup_cons] at hks
      simp only [removePhase, Manager.remove_device]
      rcases List.mem_cons.mp h with h1 | h1
      · subst h1
        have hafter : containsD (removeD m k).2 k = false :=
          containsD_removeD_self hm
        rcases hfst : (removeD m k).1 with _ | kv
        · have : removeD m k = (none, (removeD m k).2) := by rw [← hfst]
          rw [this]
          rw [removePhase_contains_other hks.1]
          exact hafter
        · have : removeD m k = (some kv, (removeD m k).2) := by rw [← hfst]
          rw [this]
          simp only
          rw [removePhase_contains_other hks.1]
          exact hafter
      · have hm2 : (keysD (removeD m key).2).Nodup := nodup_keysD_removeD hm
        rcases hfst : (removeD m key).1 with _ | kv
        · have : removeD m key = (none, (removeD m key).2) := by rw [← hfst]
          rw [this]
          exact ih hm2 hks.2 h1
        · have : removeD m key = (some kv, (removeD m key).2) := by rw [← hfst]
          rw [this]
          simp only
          exact ih hm2 hks.2 h1

theorem removePhase_emits {m : Registry} {ks : List Nat} {k : Nat} {v : HidDevice}
    (hks : ks.Nodup) (hmem : k ∈ ks) (hget : getD m k = some v) :
    CentralEvent.DeviceRemove v ∈ (removePhase m ks).2 := by
  induction ks generalizing m with
  | nil => cases hmem
  | cons key rest ih =>
      simp only [List.nodup_cons] at hks
      simp only [removePhase, Manager.remove_device]
      rcases List.mem_cons.mp hmem with h1 | h1
      · subst h1
        have hfind := getD_eq_map_removeD_fst m k
        rw [hget] at hfind
        rcases hfst : (removeD m k).1 with _ | kv
        · rw [hfst] at hfind; simp at hfind
        · rw [hfst] at hfind
          have hv : kv.2 = v := by
            simpa using hfind.symm
          have : removeD m k = (some kv, (removeD m k).2) := by rw [← hfst]
          rw [this]
          simp [hv]
      · have hne : k ≠ key := fun he => hks.1 (he ▸ h1)
        have hget2 : getD (removeD m key).2 k = some v := by
          rw [getD_removeD_other hne]; exact hget
        rcases hfst : (removeD m key).1 with _ | kv
        · have : removeD m key = (none, (removeD m key).2) := by rw [← hfst]
          rw [this]
          exact ih hks.2 h1 hget2
        · have : removeD m key = (some kv, (removeD m key).2) := by rw [← hfst]
          rw [this]
          simp only [List.mem_cons]
          exact Or.inr (ih hks.2 h1 hget2)

theorem mem_keysD_removePhase {m : Registry} {ks : List Nat} {k : Nat}
    (h : k ∈ keysD (removePhase m ks).1) : k ∈ keysD m := by
  induction ks generalizing m with
  | nil => simpa [removePhase] using h
  | cons key rest ih =>
      simp only [removePhase, Manager.remove_device] at h
      rcases hfst : (removeD m key).1 with _ | kv
      · have heq : removeD m key = (none, (removeD m key).2) := by rw [← hfst]
        rw [heq] at h
        exact mem_keysD_removeD (ih h)
      · have heq : removeD m key = (some kv, (removeD m key).2) := by rw [← hfst]
        rw [heq] at h
        simp only at h
        exact mem_keysD_removeD (ih h)

theorem mem_valuesD_removePhase {m : Registry} {ks : List Nat} {d : HidDevice}
    (h : d ∈ valuesD (removePhase m ks).1) : d ∈ valuesD m := by
  induction ks generalizing m with
  | nil => simpa [removePhase] using h
  | cons key rest ih =>
      simp only [removePhase, Manager.remove_device] at h
      rcases hfst : (removeD m key).1 with _ | kv
      · have heq : removeD m key = (none, (removeD m key).2) := by rw [← hfst]
        rw [heq] at h
        exact mem_valuesD_removeD (ih h)
      · have heq : removeD m key = (some kv, (removeD m key).2) := by rw [← hfst]
        rw [heq] at h
        simp only at h
        exact mem_valuesD_removeD (ih h)

theorem removePhase_single_absent {m : Registry} {k : Nat}
    (h : containsD m k = false) : removePhase m [k] = (m, []) := by
  simp only [removePhase, Manager.remove_device, removeD_of_not_contains h]

/-! ## Usage-page invariant and synchronization helpers -/

theorem mem_ucAdded {m : Registry} {scan : List HidDevice} {u : HidDevice}
    (h : u ∈ ucAdded m scan) :
    u ∈ scan ∧ containsD m u.id = false ∧ u.usage_page = 0xff00 := by
  have hmem := List.mem_of_mem_filter h
  have hpred := List.of_mem_filter h
  simp only [Bool.and_eq_true, Bool.not_eq_true', beq_iff_eq] at hpred
  exact ⟨hmem, hpred.1, hpred.2⟩

theorem ucAdded_mem {m : Registry} {scan : List HidDevice} {u : HidDevice}
    (hmem : u ∈ scan) (hc : containsD m u.id = false)
    (hp : u.usage_page = 0xff00) : u ∈ ucAdded m scan := by
  refine List.mem_filter.mpr ⟨hmem, ?_⟩
  simp [hc, hp]

theorem start_seed_values {m : Registry} {scan : List HidDevice} {d : HidDevice}
    (h : d ∈ valuesD (Adapter.start_seed m scan)) :
    d ∈ valuesD m ∨ (d ∈ scan ∧ d.usage_page = 0xff00) := by
  induction scan generalizing m with
  | nil => exact Or.inl (by simpa [Adapter.start_seed] using h)
  | cons u rest ih =>
      by_cases hp : u.usage_page = 0xff00
      · simp only [Adapter.start_seed, Manager.add_devices, beq_iff_eq, if_pos hp] at h
        rcases ih h with h1 | h1
        · rcases mem_valuesD_insertD h1 with h2 | h2
          · exact Or.inr ⟨by simp [h2], h2 ▸ hp⟩
          · exact Or.inl h2
        · exact Or.inr ⟨List.mem_cons_of_mem u h1.1, h1.2⟩
      · simp only [Adapter.start_seed, beq_iff_eq, if_neg hp] at h
        rcases ih h with h1 | h1
        · exact Or.inl h1
        · exact Or.inr ⟨List.mem_cons_of_mem u h1.1, h1.2⟩

theorem usb_device_change_values {m : Registry} {scan : List HidDevice}
    {d : HidDevice} (h : d ∈ valuesD (usb_device_change m scan).1) :
    d ∈ valuesD m ∨ d.usage_page = 0xff00 := by
  have h1 : d ∈ valuesD (ucAfterAdd m scan) :=
    mem_valuesD_removePhase (by simpa [usb_device_change, ucAfterAdd] using h)
  rcases mem_valuesD_addPhase (by simpa [ucAfterAdd] using h1) with h2 | h2
  · exact Or.inl h2
  · exact Or.inr (mem_ucAdded h2).2.2

theorem runScans_values {scans : List (List HidDevice)} {m : Registry}
    {d : HidDevice} (h : d ∈ valuesD (runScans m scans)) :
    d ∈ valuesD m ∨ d.usage_page = 0xff00 := by
  induction scans generalizing m with
  | nil => exact Or.inl (by simpa [runScans] using h)
  | cons s rest ih =>
      simp only [runScans] at h
      rcases ih h with h1 | h1
      · exact usb_device_change_values h1
      · exact Or.inr h1

theorem usb_device_change_of_nil {m : Registry} {scan : List HidDevice}
    (h1 : ucAdded m scan = []) (h2 : ucRemovedKeys m scan = []) :
    usb_device_change m scan = (m, []) := by
  have ha : addPhase m (ucAdded m scan) = (m, []) := by
    rw [h1]; rfl
  have haa : ucAfterAdd m scan = m := by
    simp [ucAfterAdd, ha]
  simp only [usb_device_change, ha, h2]
  rfl

theorem ucRemovedKeys_afterAdd (m m' : Registry) (scan : List HidDevice)
    (h : ucAfterAdd m scan = m') :
    ucRemovedKeys m scan =
      (keysD m').filter (fun u => !(scan.map (·.id)).contains u) := by
  rw [ucRemovedKeys, ← h]

/-! ## Claim theorems: registry and synchronization -/

/-- C6: devices whose usage page differs from the managed page `0xff00`
are never inserted by the seed scan of `Adapter::start` or by any
hotplug synchronization pass: starting from the empty registry of
`Adapter::new`, after the seed scan and any sequence of passes every
descriptor in the registry has `usage_page = 0xff00`. -/
theorem C6_usage_page_invariant :
    ∀ (seed : List HidDevice) (scans : List (List HidDevice)) (d : HidDevice),
      d ∈ valuesD (runScans (Adapter.start_seed [] seed) scans) →
      d.usage_page = 0xff00 := by
  intro seed scans d h
  rcases runScans_values h with h1 | h1
  · rcases start_seed_values h1 with h2 | h2
    · simp [valuesD] at h2
    · exact h2.2
  · exact h1

/-- Witness for C6 at a concrete seed scan and hotplug pass. -/
theorem C6_usage_page_invariant_witness :
    devManaged ∈ valuesD (runScans (Adapter.start_seed [] [devManaged, devOther])
        [[devManaged, devUnmanaged]]) ∧
    devManaged.usage_page = 0xff00 :=
  ⟨by decide,
   C6_usage_page_invariant [devManaged, devOther] [[devManaged, devUnmanaged]]
     devManaged (by decide)⟩

/-- C7: on any registry with distinct keys (every `DashMap` state),
`add_devices` is an unconditional upsert returning `Ok(())` with
last-write-wins, `remove_device` of an absent key returns `None` and
leaves the registry unchanged, and a second remove of the same key
after a successful one returns `None`. -/
theorem C7_registry_upsert_remove :
    ∀ (m : Registry) (k : Nat) (v : HidDevice), (keysD m).Nodup →
      (Manager.add_devices m k v).1 = .ok () ∧
      getD (Manager.add_devices m k v).2 k = some v ∧
      (containsD m k = false → Manager.remove_device m k = (none, m)) ∧
      (Manager.remove_device (Manager.remove_device m k).2 k).1 = none := by
  intro m k v hnd
  refine ⟨rfl, ?_, ?_, ?_⟩
  · simpa [Manager.add_devices] using getD_insertD_self m k v
  · intro h
    simpa [Manager.remove_device] using removeD_of_not_contains h
  · have h2 : containsD (removeD m k).2 k = false := containsD_removeD_self hnd
    simp [Manager.remove_device, removeD_of_not_contains h2]

/-- Witness for C7: upsert over an existing key 1, then double remove. -/
theorem C7_registry_upsert_remove_witness :
    getD (Manager.add_devices [(1, devManaged)] 1 devUnmanaged).2 1 =
      some devUnmanaged ∧
    (Manager.remove_device (Manager.remove_device [(1, devManaged)] 1).2 1).1 =
      none :=
  ⟨(C7_registry_upsert_remove [(1, devManaged)] 1 devUnmanaged (by decide)).2.1,
   (C7_registry_upsert_remove [(1, devManaged)] 1 devUnmanaged (by decide)).2.2.2⟩

/-- C8: `Adapter::peripheral(id)` returns the stored descriptor exactly
when the registry holds one for `id`, fails with `NotFound` exactly when
it does not, and passes the registry through unchanged. -/
theorem C8_peripheral_lookup :
    ∀ (m : Registry) (id0 : Nat),
      (∀ d, getD m id0 = some d → Adapter.peripheral m id0 = (.ok d, m)) ∧
      (getD m id0 = none ↔ (Adapter.peripheral m id0).1 = .fail .notFound) ∧
      (Adapter.peripheral m id0).2 = m := by
  intro m id0
  refine ⟨?_, ?_, rfl⟩
  · intro d h
    simp [Adapter.peripheral, Manager.device, h]
  · cases h : getD m id0 <;> simp [Adapter.peripheral, Manager.device, h]

/-- Witness for C8: lookup of the present key 1 and of the absent key 2. -/
theorem C8_peripheral_lookup_witness :
    Adapter.peripheral [(1, devManaged)] 1 = (.ok devManaged, [(1, devManaged)]) ∧
    (Adapter.peripheral [(1, devManaged)] 2).1 = .fail .notFound :=
  ⟨(C8_peripheral_lookup [(1, devManaged)] 1).1 devManaged (by decide),
   (C8_peripheral_lookup [(1, devManaged)] 2).2.1.mp (by decide)⟩

/-- Counterexample for C3 as stated: registry `{1 ↦ devManaged}`, scan
returning only `devUnmanaged` (same container id 1, usage page 1, so
the id is absent from the *filtered* scan id set).  The claim demands
the entry be removed and `Removed` emitted, but the pass leaves the
registry unchanged and emits nothing, because the source diffs removals
against the unfiltered id list. -/
theorem C3_removed_set_counterexample :
    containsD [(1, devManaged)] 1 = true ∧
    1 ∉ (([devUnmanaged].filter (fun u => u.usage_page == 0xff00)).map (·.id)) ∧
    usb_device_change [(1, devManaged)] [devUnmanaged] = ([(1, devManaged)], []) := by
  decide

/-- C3 (amended): the removed set is the registry keys (after the add
phase) absent from the *unfiltered* current-scan id set; each such key
is removed and `Removed(descriptor)` is emitted when the removal
returns a prior descriptor; a key already absent is skipped silently,
leaving the registry as is and emitting nothing. -/
theorem C3_removed_set_amended :
    ∀ (m : Registry) (scan : List HidDevice) (k : Nat), (keysD m).Nodup →
      (k ∈ ucRemovedKeys m scan ↔
        k ∈ keysD (ucAfterAdd m scan) ∧ k ∉ scan.map (·.id)) ∧
      (k ∈ ucRemovedKeys m scan →
        containsD (usb_device_change m scan).1 k = false ∧
        ∀ v, getD (ucAfterAdd m scan) k = some v →
          CentralEvent.DeviceRemove v ∈ (usb_device_change m scan).2) ∧
      (containsD m k = false → removePhase m [k] = (m, [])) := by
  intro m scan k hnd
  have hndA : (keysD (ucAfterAdd m scan)).Nodup := by
    simpa [ucAfterAdd] using @nodup_keysD_addPhase m (ucAdded m scan) hnd
  have hndR : (ucRemovedKeys m scan).Nodup := hndA.filter _
  refine ⟨?_, ?_, ?_⟩
  · simp only [ucRemovedKeys, List.mem_filter, Bool.not_eq_true']
    constructor
    · rintro ⟨h1, h2⟩
      refine ⟨h1, fun hmem => ?_⟩
      have h3 : List.elem k (scan.map (·.id)) = false := h2
      rw [List.elem_iff.mpr hmem] at h3
      cases h3
    · rintro ⟨h1, h2⟩
      refine ⟨h1, ?_⟩
      cases hc : (scan.map (·.id)).contains k
      · rfl
      · exact absurd (List.elem_iff.mp hc) h2
  · intro hk
    constructor
    · exact removePhase_contains_mem hndA hndR hk
    · intro v hv
      have hmem := removePhase_emits hndR hk hv
      exact List.mem_append_right _ hmem
  · exact removePhase_single_absent

/-- Witness for C3 (amended): registry `{1 ↦ devManaged}`, scan
`[devOther]` (id 2): key 1 is in the removed set, gets removed, and
`DeviceRemove devManaged` is emitted. -/
theorem C3_removed_set_amended_witness :
    containsD (usb_device_change [(1, devManaged)] [devOther]).1 1 = false ∧
    CentralEvent.DeviceRemove devManaged ∈
      (usb_device_change [(1, devManaged)] [devOther]).2 :=
  ⟨((C3_removed_set_amended [(1, devManaged)] [devOther] 1 (by decide)).2.1
      (by decide)).1,
   ((C3_removed_set_amended [(1, devManaged)] [devOther] 1 (by decide)).2.1
      (by decide)).2 devManaged (by decide)⟩

theorem contains_eq_false_of_not_mem_map {scan : List HidDevice} {k : Nat}
    (h : k ∉ scan.map (·.id)) : (scan.map (·.id)).contains k = false := by
  cases hc : (scan.map (·.id)).contains k
  · rfl
  · exact absurd (List.elem_iff.mp hc) h

/-- C5: a synchronization pass whose scan, restricted to the managed
usage page, yields exactly the ids already registered computes empty
added and removed sets, emits no events and leaves the registry
unchanged; and a second consecutive pass over the same device list
always emits zero events and keeps the registry of the first pass. -/
theorem C5_sync_idempotent :
    ∀ (m : Registry) (scan : List HidDevice), (keysD m).Nodup →
      ((∀ k, k ∈ (scan.filter (fun u => u.usage_page == 0xff00)).map (·.id) ↔
          k ∈ keysD m) →
        usb_device_change m scan = (m, [])) ∧
      usb_device_change (usb_device_change m scan).1 scan =
        ((usb_device_change m scan).1, []) := by
  intro m scan hnd
  constructor
  · intro hEq
    have hA : ucAdded m scan = [] := by
      rw [ucAdded, List.filter_eq_nil_iff]
      intro u hu
      simp only [Bool.and_eq_true, Bool.not_eq_true', beq_iff_eq, not_and]
      intro hc hp
      have hmemf : u ∈ scan.filter (fun u => u.usage_page == 0xff00) :=
        List.mem_filter.mpr ⟨hu, by simp [hp]⟩
      have : u.id ∈ keysD m := (hEq u.id).mp (List.mem_map_of_mem _ hmemf)
      rw [containsD_eq_false_iff] at hc
      exact hc this
    have haa : ucAfterAdd m scan = m := by
      simp [ucAfterAdd, hA, addPhase]
    have hR : ucRemovedKeys m scan = [] := by
      rw [ucRemovedKeys_afterAdd m m scan haa, List.filter_eq_nil_iff]
      intro k hk
      simp only [Bool.not_eq_true']
      intro hcontains
      have hfilt : k ∈ (scan.filter (fun u => u.usage_page == 0xff00)).map (·.id) :=
        (hEq k).mpr hk
      rcases List.mem_map.mp hfilt with ⟨u, hu, huid⟩
      have humem : u ∈ scan := List.mem_of_mem_filter hu
      have : k ∈ scan.map (·.id) := huid ▸ List.mem_map_of_mem _ humem
      have h3 : List.elem k (scan.map (·.id)) = false := hcontains
      rw [List.elem_iff.mpr this] at h3
      cases h3
    exact usb_device_change_of_nil hA hR
  · have hndA : (keysD (ucAfterAdd m scan)).Nodup := by
      simpa [ucAfterAdd] using @nodup_keysD_addPhase m (ucAdded m scan) hnd
    have hndR : (ucRemovedKeys m scan).Nodup := hndA.filter _
    have hcont : ∀ u ∈ scan, u.usage_page = 0xff00 →
        containsD (usb_device_change m scan).1 u.id = true := by
      intro u hu hp
      have h1 : containsD (ucAfterAdd m scan) u.id = true := by
        cases hc : containsD m u.id
        · have : u ∈ ucAdded m scan := ucAdded_mem hu hc hp
          simpa [ucAfterAdd] using addPhase_contains_of_mem this
        · simpa [ucAfterAdd] using addPhase_contains_mono hc
      have hnotrem : u.id ∉ ucRemovedKeys m scan := by
        intro hmem
        have hpred := List.of_mem_filter hmem
        simp only [Bool.not_eq_true'] at hpred
        have hidmem : u.id ∈ scan.map (·.id) := List.mem_map_of_mem _ hu
        have h3 : List.elem u.id (scan.map (·.id)) = false := hpred
        rw [List.elem_iff.mpr hidmem] at h3
        cases h3
      have := @removePhase_contains_other
        (ucAfterAdd m scan) (ucRemovedKeys m scan) u.id hnotrem
      calc containsD (usb_device_change m scan).1 u.id
          = containsD (ucAfterAdd m scan) u.id := this
        _ = true := h1
    have hkeys : ∀ k ∈ keysD (usb_device_change m scan).1, k ∈ scan.map (·.id) := by
      intro k hk
      by_contra hnk
      have hkA : k ∈ keysD (ucAfterAdd m scan) := mem_keysD_removePhase hk
      have hmem : k ∈ ucRemovedKeys m scan :=
        List.mem_filter.mpr ⟨hkA, by
          simp only [Bool.not_eq_true']
          exact contains_eq_false_of_not_mem_map hnk⟩
      have hfalse : containsD (usb_device_change m scan).1 k = false :=
        @removePhase_contains_mem (ucAfterAdd m scan) (ucRemovedKeys m scan) k
          hndA hndR hmem
      have htrue : containsD (usb_device_change m scan).1 k = true :=
        containsD_iff.mpr hk
      rw [htrue] at hfalse
      cases hfalse
    have hA2 : ucAdded (usb_device_change m scan).1 scan = [] := by
      rw [ucAdded, List.filter_eq_nil_iff]
      intro u hu
      simp only [Bool.and_eq_true, Bool.not_eq_true', beq_iff_eq, not_and]
      intro hc hp
      have := hcont u hu hp
      rw [this] at hc
      cases hc
    have haa2 : ucAfterAdd (usb_device_change m scan).1 scan =
        (usb_device_change m scan).1 := by
      simp [ucAfterAdd, hA2, addPhase]
    have hR2 : ucRemovedKeys (usb_device_change m scan).1 scan = [] := by
      rw [ucRemovedKeys_afterAdd _ _ scan haa2, List.filter_eq_nil_iff]
      intro k hk
      simp only [Bool.not_eq_true']
      intro hcontains
      have hidmem := hkeys k hk
      have h3 : List.elem k (scan.map (·.id)) = false := hcontains
      rw [List.elem_iff.mpr hidmem] at h3
      cases h3
    exact usb_device_change_of_nil hA2 hR2

/-- Witness for C5: a registry already holding the managed device and a
scan returning exactly that device. -/
theorem C5_sync_idempotent_witness :
    usb_device_change [(1, devManaged)] [devManaged] = ([(1, devManaged)], []) := by
  have hfix : ([devManaged].filter (fun u => u.usage_page == 0xff00)).map (·.id) = [1] := by
    decide
  have hkeys : keysD [(1, devManaged)] = [1] := by decide
  exact (C5_sync_idempotent [(1, devManaged)] [devManaged] (by decide)).1
    (by intro k; rw [hfix, hkeys])

/-! ## Transport lemmas -/

theorem check_handle_spec (st : Bool) (openRes : OpenOutcome) :
    check_handle st openRes = (.ok (), true) ∨
    (∃ c, check_handle st openRes = (.fail (.osError c), false)) ∨
    check_handle st openRes = (.fail .openError, false) := by
  cases st <;> cases openRes <;> simp [check_handle, open_device]

theorem check_handle_acquired {st : Bool} {openRes : OpenOutcome}
    (h : st = true ∨ openRes = .success) :
    check_handle st openRes = (.ok (), true) := by
  rcases h with h | h
  · subst h; simp [check_handle]
  · subst h; cases st <;> simp [check_handle, open_device]

/-! ## Claim theorems: report transport -/

/-- C10: a descriptor built by `HidDevice::new` has all three report
byte lengths `0`, so every transport operation fails with
`DataOverlength` (before any handle is opened: the handle state is
returned unchanged) for every report id and every payload/length whose
size+1 is nonzero after the `as u32` truncation. -/
theorem C10_fresh_device_overlength :
    ∀ (id0 : Nat) (path : String) (st osOk : Bool) (openRes : OpenOutcome)
      (ec rid data_len read_len write_len : Nat) (data resp : List Nat),
      (data.length + 1) % U32MOD ≠ 0 → (data_len + 1) % U32MOD ≠ 0 →
      (HidDevice.new id0 path).input_report_byte_length = 0 ∧
      (HidDevice.new id0 path).output_report_byte_length = 0 ∧
      (HidDevice.new id0 path).feature_report_byte_length = 0 ∧
      set_output_report (HidDevice.new id0 path) st openRes osOk ec rid data =
        (.fail .dataOverlength, st) ∧
      HidDevice.write (HidDevice.new id0 path) st openRes osOk ec write_len rid data =
        (.fail .dataOverlength, st) ∧
      get_input_report (HidDevice.new id0 path) st openRes osOk ec resp rid data_len =
        (.fail .dataOverlength, st) ∧
      get_feature_report (HidDevice.new id0 path) st openRes osOk ec resp rid data_len =
        (.fail .dataOverlength, st) ∧
      read_continuous (HidDevice.new id0 path) st openRes osOk ec read_len resp rid data_len =
        (.fail .dataOverlength, st) := by
  intro id0 path st osOk openRes ec rid data_len read_len write_len data resp h1 h2
  have hd : 0 < (data.length + 1) % U32MOD := Nat.pos_of_ne_zero h1
  have hl : 0 < (data_len + 1) % U32MOD := Nat.pos_of_ne_zero h2
  refine ⟨rfl, rfl, rfl, ?_, ?_, ?_, ?_, ?_⟩ <;>
    simp [set_output_report, HidDevice.write, get_input_report,
      get_feature_report, read_continuous, HidDevice.new, HidDevice.defaultDev,
      hd, hl]

/-- Witness for C10: the fresh descriptor rejects even an empty payload. -/
theorem C10_fresh_device_overlength_witness :
    ((List.length ([] : List Nat)) + 1) % U32MOD ≠ 0 ∧
    set_output_report (HidDevice.new 7 "p") false .success true 0 0 [] =
      (.fail .dataOverlength, false) :=
  ⟨by decide,
   (C10_fresh_device_overlength 7 "p" false true .success 0 0 0 0 0 [] []
      (by decide) (by decide)).2.2.2.1⟩

/-- C2 (amended): `set_output_report` fails with `DataOverlength` iff
`(len(payload) + 1) % 2^32 > outputReportByteLength` (the source casts
the length with `as u32`); and whenever `len(payload) + 1 ≤
outputReportByteLength`, the buffer handed to `HidD_SetOutputReport`
has byte 0 = reportId, then the payload, zero-padded to total length
exactly `outputReportByteLength`. -/
theorem C2_output_report_amended :
    ∀ (d : HidDevice) (st osOk : Bool) (openRes : OpenOutcome) (ec rid : Nat)
      (data : List Nat),
      ((set_output_report d st openRes osOk ec rid data).1 =
          .fail .dataOverlength ↔
        (data.length + 1) % U32MOD > d.output_report_byte_length) ∧
      (data.length + 1 ≤ d.output_report_byte_length →
        output_assemble_data rid data d.output_report_byte_length =
          rid :: (data ++
            List.replicate (d.output_report_byte_length - (data.length + 1)) 0) ∧
        (output_assemble_data rid data d.output_report_byte_length).length =
          d.output_report_byte_length) := by
  intro d st osOk openRes ec rid data
  constructor
  · constructor
    · intro h
      by_contra hg
      rcases check_handle_spec st openRes with hch | ⟨c, hch⟩ | hch <;>
        simp only [set_output_report, if_neg hg, hch] at h <;>
        cases osOk <;> simp_all
    · intro hg
      simp [set_output_report, hg]
  · intro hle
    simp only [output_assemble_data]
    by_cases hlt : (rid :: data).length < d.output_report_byte_length
    · rw [if_pos hlt]
      constructor
      · simp [List.cons_append]
      · simp only [List.length_append, List.length_cons, List.length_replicate]
        omega
    · rw [if_neg hlt]
      have heq : data.length + 1 = d.output_report_byte_length := by
        simp only [List.length_cons] at hlt
        omega
      constructor
      · rw [← heq]
        simp
      · simp [← heq]

/-- Witness for C2 (amended) at a 65-byte output report with a 2-byte
payload. -/
theorem C2_output_report_amended_witness :
    output_assemble_data 0 [1, 1] dev65.output_report_byte_length =
      0 :: ([1, 1] ++ List.replicate 62 0) ∧
    (output_assemble_data 0 [1, 1] dev65.output_report_byte_length).length =
      dev65.output_report_byte_length :=
  ⟨by
    have h := (C2_output_report_amended dev65 false false .success 0 0 [1, 1]).2
      (by decide)
    simpa using h.1,
   by
    have h := (C2_output_report_amended dev65 false false .success 0 0 [1, 1]).2
      (by decide)
    exact h.2⟩

/-- Counterexample for C2 as stated: on a never-enumerated descriptor
(`outputReportByteLength = 0`) and a payload of `2^32 - 1` bytes,
`len(payload) + 1 > outputReportByteLength` holds, yet the call does
not fail with `DataOverlength` — the `as u32` cast wraps the length
check to `0 > 0`. -/
theorem C2_output_report_counterexample :
    ((List.replicate (U32MOD - 1) (0 : Nat)).length + 1 >
      (HidDevice.new 0 "").output_report_byte_length) ∧
    (set_output_report (HidDevice.new 0 "") false .invalid false 0 0
        (List.replicate (U32MOD - 1) 0)).1 ≠ .fail .dataOverlength := by
  have hmod : ((List.replicate (U32MOD - 1) (0 : Nat)).length + 1) % U32MOD = 0 := by
    rw [List.length_replicate]
    have h1 : (1 : Nat) ≤ U32MOD := by norm_num [U32MOD]
    have h2 : U32MOD - 1 + 1 = U32MOD := by omega
    rw [h2, Nat.mod_self]
  constructor
  · simp [HidDevice.new, HidDevice.defaultDev, List.length_replicate]
  · simp only [set_output_report, hmod]
    have hg : ¬ ((0 : Nat) > (HidDevice.new 0 "").output_report_byte_length) := by
      simp
    rw [if_neg hg]
    simp [check_handle, open_device]

theorem get_input_report_success_eq {d : HidDevice} {st : Bool}
    {openRes : OpenOutcome} {ec rid data_len b : Nat} {rest : List Nat}
    (hacq : st = true ∨ openRes = .success)
    (hg : ¬ ((data_len + 1) % U32MOD > d.input_report_byte_length))
    (hip : d.input_report_byte_length ≠ 0) :
    get_input_report d st openRes true ec (b :: rest) rid data_len =
      (.ok ((if b == rid then rest else b :: rest).take data_len), false) := by
  obtain ⟨n, hn⟩ : ∃ n, d.input_report_byte_length = n + 1 :=
    ⟨d.input_report_byte_length - 1, by omega⟩
  rw [hn] at hg
  simp only [get_input_report, check_handle_acquired hacq, hn,
    input_assemble_data]
  simp [hg]

theorem get_feature_report_success_eq {d : HidDevice} {st : Bool}
    {openRes : OpenOutcome} {ec rid data_len b : Nat} {rest : List Nat}
    (hacq : st = true ∨ openRes = .success)
    (hg : ¬ ((data_len + 1) % U32MOD > d.feature_report_byte_length))
    (hip : d.feature_report_byte_length ≠ 0) :
    get_feature_report d st openRes true ec (b :: rest) rid data_len =
      (.ok ((if b == rid then rest else b :: rest).take data_len), false) := by
  obtain ⟨n, hn⟩ : ∃ n, d.feature_report_byte_length = n + 1 :=
    ⟨d.feature_report_byte_length - 1, by omega⟩
  rw [hn] at hg
  simp only [get_feature_report, check_handle_acquired hacq, hn,
    input_assemble_data]
  simp [hg]

theorem read_continuous_success_eq {d : HidDevice} {st : Bool}
    {openRes : OpenOutcome} {ec rid data_len read_len b : Nat} {rest : List Nat}
    (hacq : st = true ∨ openRes = .success)
    (hg : ¬ ((data_len + 1) % U32MOD > d.input_report_byte_length))
    (hip : d.input_report_byte_length ≠ 0) (hrl : read_len ≠ 0) :
    read_continuous d st openRes true ec read_len (b :: rest) rid data_len =
      (.ok ((if b == rid then rest else b :: rest).take data_len), true) := by
  obtain ⟨n, hn⟩ : ∃ n, d.input_report_byte_length = n + 1 :=
    ⟨d.input_report_byte_length - 1, by omega⟩
  rw [hn] at hg
  have hrl' : (read_len == 0) = false := by simp [hrl]
  simp only [read_continuous, check_handle_acquired hacq, hn,
    input_assemble_data, hrl']
  simp [hg]

/-- C4: on a device with `inputReportByteLength = 65`, a successful
`get_input_report(0x00, 51)` returns exactly 51 bytes; when the OS
fills byte 0 with the report id `0x00`, that byte is dropped before
the result is truncated to 51 bytes. -/
theorem C4_get_input_51 :
    ∀ (d : HidDevice) (st : Bool) (openRes : OpenOutcome) (ec : Nat)
      (resp : List Nat),
      d.input_report_byte_length = 65 → resp.length = 65 →
      (st = true ∨ openRes = .success) →
      (∀ l s, get_input_report d st openRes true ec resp 0 51 = (.ok l, s) →
        l.length = 51) ∧
      (resp.head? = some 0 →
        get_input_report d st openRes true ec resp 0 51 =
          (.ok (resp.tail.take 51), false)) := by
  intro d st openRes ec resp hipl hresp hacq
  have hg : ¬ ((51 + 1) % U32MOD > d.input_report_byte_length) := by
    rw [hipl]; norm_num [U32MOD]
  have hip : d.input_report_byte_length ≠ 0 := by omega
  cases resp with
  | nil => simp at hresp
  | cons b rest =>
      have heq := @get_input_report_success_eq d st openRes ec 0 51 b rest
        hacq hg hip
      have hrest : rest.length = 64 := by
        simpa using hresp
      constructor
      · intro l s h
        rw [heq] at h
        have hl : (if b == 0 then rest else b :: rest).take 51 = l := by
          have := congrArg Prod.fst h
          simpa using this
        rw [← hl]
        by_cases hb : b = 0 <;>
          simp [hb, List.length_take, hrest]
      · intro hb
        have hb0 : b = 0 := by simpa using hb
        subst hb0
        simpa using heq

/-- Witness for C4 at a concrete 65-byte OS response. -/
theorem C4_get_input_51_witness :
    get_input_report dev65 true .success true 0 (List.range 65) 0 51 =
      (.ok ((List.range 65).tail.take 51), false) :=
  ((C4_get_input_51 dev65 true .success 0 (List.range 65) (by decide) (by decide)
      (Or.inl rfl)).2 (by decide))

/-- C9: whenever `data_len + 1` is at most the relevant capability
length and the OS call succeeds, `get_input_report`,
`get_feature_report` and `read_continuous` return exactly `data_len`
bytes; when byte 0 of the OS buffer differs from `report_id`, the
leading byte is retained and the excess is cut from the tail
(the result is a prefix of the raw buffer). -/
theorem C9_success_exact_length :
    ∀ (d : HidDevice) (st : Bool) (openRes : OpenOutcome)
      (ec rid data_len read_len b : Nat) (rest : List Nat),
      (st = true ∨ openRes = .success) →
      (data_len + 1 ≤ d.input_report_byte_length →
        (b :: rest).length = d.input_report_byte_length →
        ∃ l, get_input_report d st openRes true ec (b :: rest) rid data_len =
            (.ok l, false) ∧ l.length = data_len ∧
          (b ≠ rid → l = (b :: rest).take data_len)) ∧
      (data_len + 1 ≤ d.feature_report_byte_length →
        (b :: rest).length = d.feature_report_byte_length →
        ∃ l, get_feature_report d st openRes true ec (b :: rest) rid data_len =
            (.ok l, false) ∧ l.length = data_len ∧
          (b ≠ rid → l = (b :: rest).take data_len)) ∧
      (data_len + 1 ≤ d.input_report_byte_length →
        (b :: rest).length = d.input_report_byte_length → read_len ≠ 0 →
        ∃ l, read_continuous d st openRes true ec read_len (b :: rest) rid data_len =
            (.ok l, true) ∧ l.length = data_len ∧
          (b ≠ rid → l = (b :: rest).take data_len)) := by
  intro d st openRes ec rid data_len read_len b rest hacq
  refine ⟨?_, ?_, ?_⟩
  · intro hle hlen
    have hg : ¬ ((data_len + 1) % U32MOD > d.input_report_byte_length) := by
      have := Nat.mod_le (data_len + 1) U32MOD
      omega
    have hip : d.input_report_byte_length ≠ 0 := by omega
    refine ⟨(if b == rid then rest else b :: rest).take data_len,
      get_input_report_success_eq hacq hg hip, ?_, ?_⟩
    · have hrest : rest.length + 1 = d.input_report_byte_length := by
        simpa using hlen
      by_cases hb : b = rid <;> simp [hb, List.length_take] <;> omega
    · intro hb
      simp [hb]
  · intro hle hlen
    have hg : ¬ ((data_len + 1) % U32MOD > d.feature_report_byte_length) := by
      have := Nat.mod_le (data_len + 1) U32MOD
      omega
    have hip : d.feature_report_byte_length ≠ 0 := by omega
    refine ⟨(if b == rid then rest else b :: rest).take data_len,
      get_feature_report_success_eq hacq hg hip, ?_, ?_⟩
    · have hrest : rest.length + 1 = d.feature_report_byte_length := by
        simpa using hlen
      by_cases hb : b = rid <;> simp [hb, List.length_take] <;> omega
    · intro hb
      simp [hb]
  · intro hle hlen hrl
    have hg : ¬ ((data_len + 1) % U32MOD > d.input_report_byte_length) := by
      have := Nat.mod_le (data_len + 1) U32MOD
      omega
    have hip : d.input_report_byte_length ≠ 0 := by omega
    refine ⟨(if b == rid then rest else b :: rest).take data_len,
      read_continuous_success_eq hacq hg hip hrl, ?_, ?_⟩
    · have hrest : rest.length + 1 = d.input_report_byte_length := by
        simpa using hlen
      by_cases hb : b = rid <;> simp [hb, List.length_take] <;> omega
    · intro hb
      simp [hb]

/-- Witness for C9: a 65-byte buffer whose byte 0 (value 9) differs
from report id 0, requested length 51 — the head is retained. -/
theorem C9_success_exact_length_witness :
    ∃ l, get_input_report dev65 true .success true 0 (9 :: List.replicate 64 2) 0 51 =
        (.ok l, false) ∧ l.length = 51 ∧
      (9 ≠ 0 → l = ((9 : Nat) :: List.replicate 64 2).take 51) :=
  (C9_success_exact_length dev65 true .success 0 0 51 1 9 (List.replicate 64 2)
      (Or.inl rfl)).1 (by decide) (by decide)

theorem set_output_report_ok_closed {d : HidDevice} {st osOk : Bool}
    {openRes : OpenOutcome} {ec rid : Nat} {data : List Nat}
    (h : (set_output_report d st openRes osOk ec rid data).1.isOk = true) :
    (set_output_report d st openRes osOk ec rid data).2 = false := by
  by_cases hg : (data.length + 1) % U32MOD > d.output_report_byte_length
  · simp only [set_output_report, if_pos hg] at h
    simp [TxResult.isOk] at h
  · rcases check_handle_spec st openRes with hch | ⟨c, hch⟩ | hch <;>
      simp only [set_output_report, if_neg hg, hch] at h ⊢ <;>
      cases osOk <;> simp_all [TxResult.isOk]

theorem write_ok_closed {d : HidDevice} {st osOk : Bool}
    {openRes : OpenOutcome} {ec write_len rid : Nat} {data : List Nat}
    (h : (HidDevice.write d st openRes osOk ec write_len rid data).1.isOk = true) :
    (HidDevice.write d st openRes osOk ec write_len rid data).2 = false := by
  by_cases hg : (data.length + 1) % U32MOD > d.output_report_byte_length
  · simp only [HidDevice.write, if_pos hg] at h
    simp [TxResult.isOk] at h
  · rcases check_handle_spec st openRes with hch | ⟨c, hch⟩ | hch <;>
      simp only [HidDevice.write, if_neg hg, hch] at h ⊢ <;>
      cases osOk <;> cases hwl : (write_len == 0) <;>
      simp_all [TxResult.isOk]

theorem get_input_report_ok_closed {d : HidDevice} {st osOk : Bool}
    {openRes : OpenOutcome} {ec rid data_len : Nat} {resp : List Nat}
    (h : (get_input_report d st openRes osOk ec resp rid data_len).1.isOk = true) :
    (get_input_report d st openRes osOk ec resp rid data_len).2 = false := by
  rcases hE : get_input_report d st openRes osOk ec resp rid data_len with ⟨r, stf⟩
  rw [hE] at h
  cases r with
  | ok v =>
      unfold get_input_report at hE
      repeat' split at hE
      all_goals simp_all
  | fail e => simp [TxResult.isOk] at h
  | panicked => simp [TxResult.isOk] at h

theorem get_feature_report_ok_closed {d : HidDevice} {st osOk : Bool}
    {openRes : OpenOutcome} {ec rid data_len : Nat} {resp : List Nat}
    (h : (get_feature_report d st openRes osOk ec resp rid data_len).1.isOk = true) :
    (get_feature_report d st openRes osOk ec resp rid data_len).2 = false := by
  rcases hE : get_feature_report d st openRes osOk ec resp rid data_len with ⟨r, stf⟩
  rw [hE] at h
  cases r with
  | ok v =>
      unfold get_feature_report at hE
      repeat' split at hE
      all_goals simp_all
  | fail e => simp [TxResult.isOk] at h
  | panicked => simp [TxResult.isOk] at h

theorem read_ok_closed {d : HidDevice} {st osOk : Bool}
    {openRes : OpenOutcome} {ec read_len rid data_len : Nat} {resp : List Nat}
    (h : (HidDevice.read d st openRes osOk ec read_len resp rid data_len).1.isOk
      = true) :
    (HidDevice.read d st openRes osOk ec read_len resp rid data_len).2 = false := by
  rcases hrc : read_continuous d st openRes osOk ec read_len resp rid data_len
    with ⟨r, st1⟩
  cases r <;> simp_all [HidDevice.read, hrc, TxResult.isOk]

theorem os_fail_open_set_output {d : HidDevice} {st : Bool}
    {openRes : OpenOutcome} {ec rid : Nat} {data : List Nat}
    (hle : (data.length + 1) % U32MOD ≤ d.output_report_byte_length)
    (hacq : st = true ∨ openRes = .success) :
    set_output_report d st openRes false ec rid data = (.fail (.win32 ec), true) := by
  have hg : ¬ ((data.length + 1) % U32MOD > d.output_report_byte_length) := by
    omega
  simp only [set_output_report, if_neg hg, check_handle_acquired hacq]
  simp

theorem os_fail_open_write {d : HidDevice} {st : Bool}
    {openRes : OpenOutcome} {ec write_len rid : Nat} {data : List Nat}
    (hle : (data.length + 1) % U32MOD ≤ d.output_report_byte_length)
    (hacq : st = true ∨ openRes = .success) :
    HidDevice.write d st openRes false ec write_len rid data =
      (.fail (.win32 ec), true) := by
  have hg : ¬ ((data.length + 1) % U32MOD > d.output_report_byte_length) := by
    omega
  simp only [HidDevice.write, if_neg hg, check_handle_acquired hacq]
  simp

theorem os_fail_open_get_input {d : HidDevice} {st : Bool}
    {openRes : OpenOutcome} {ec rid data_len : Nat} {resp : List Nat}
    (hle : (data_len + 1) % U32MOD ≤ d.input_report_byte_length)
    (hip : d.input_report_byte_length ≠ 0)
    (hacq : st = true ∨ openRes = .success) :
    get_input_report d st openRes false ec resp rid data_len =
      (.fail (.win32 ec), true) := by
  have hg : ¬ ((data_len + 1) % U32MOD > d.input_report_byte_length) := by
    omega
  obtain ⟨n, hn⟩ : ∃ n, d.input_report_byte_length = n + 1 :=
    ⟨d.input_report_byte_length - 1, by omega⟩
  rw [hn] at hg
  simp only [get_input_report, check_handle_acquired hacq, hn,
    input_assemble_data]
  simp [hg]

theorem os_fail_open_get_feature {d : HidDevice} {st : Bool}
    {openRes : OpenOutcome} {ec rid data_len : Nat} {resp : List Nat}
    (hle : (data_len + 1) % U32MOD ≤ d.feature_report_byte_length)
    (hip : d.feature_report_byte_length ≠ 0)
    (hacq : st = true ∨ openRes = .success) :
    get_feature_report d st openRes false ec resp rid data_len =
      (.fail (.win32 ec), true) := by
  have hg : ¬ ((data_len + 1) % U32MOD > d.feature_report_byte_length) := by
    omega
  obtain ⟨n, hn⟩ : ∃ n, d.feature_report_byte_length = n + 1 :=
    ⟨d.feature_report_byte_length - 1, by omega⟩
  rw [hn] at hg
  simp only [get_feature_report, check_handle_acquired hacq, hn,
    input_assemble_data]
  simp [hg]

theorem os_fail_open_read {d : HidDevice} {st : Bool}
    {openRes : OpenOutcome} {ec read_len rid data_len : Nat} {resp : List Nat}
    (hle : (data_len + 1) % U32MOD ≤ d.input_report_byte_length)
    (hip : d.input_report_byte_length ≠ 0)
    (hacq : st = true ∨ openRes = .success) :
    HidDevice.read d st openRes false ec read_len resp rid data_len =
      (.fail (.win32 ec), true) := by
  have hg : ¬ ((data_len + 1) % U32MOD > d.input_report_byte_length) := by
    omega
  obtain ⟨n, hn⟩ : ∃ n, d.input_report_byte_length = n + 1 :=
    ⟨d.input_report_byte_length - 1, by omega⟩
  rw [hn] at hg
  have hrc : read_continuous d st openRes false ec read_len resp rid data_len =
      (.fail (.win32 ec), true) := by
    simp only [read_continuous, check_handle_acquired hacq, hn,
      input_assemble_data]
    simp [hg]
  simp [HidDevice.read, hrc]

/-- Counterexample for C1 as stated: on `dev65` with no handle held, a
successful open followed by a failing `HidD_SetOutputReport` makes
`set_output_report` return an error with the handle still open
(exit state `true`, not `Closed`): the `bail!` on the OS-call-failure
path runs before any `close_device`. -/
theorem C1_handle_close_counterexample :
    (set_output_report dev65 false .success false 5 0 []).1 =
      .fail (.win32 5) ∧
    (set_output_report dev65 false .success false 5 0 []).2 ≠ false := by
  decide

/-- C1 (amended): `set_output_report`, `get_input_report`,
`get_feature_report`, `write` and `read` close the handle before
returning on their success paths, but when the underlying OS report
call fails after a handle has been acquired they return the error with
the handle still open. -/
theorem C1_handle_close_amended :
    ∀ (d : HidDevice) (st osOk : Bool) (openRes : OpenOutcome)
      (ec rid data_len read_len write_len : Nat) (data resp : List Nat),
      ((set_output_report d st openRes osOk ec rid data).1.isOk = true →
        (set_output_report d st openRes osOk ec rid data).2 = false) ∧
      ((get_input_report d st openRes osOk ec resp rid data_len).1.isOk = true →
        (get_input_report d st openRes osOk ec resp rid data_len).2 = false) ∧
      ((get_feature_report d st openRes osOk ec resp rid data_len).1.isOk = true →
        (get_feature_report d st openRes osOk ec resp rid data_len).2 = false) ∧
      ((HidDevice.write d st openRes osOk ec write_len rid data).1.isOk = true →
        (HidDevice.write d st openRes osOk ec write_len rid data).2 = false) ∧
      ((HidDevice.read d st openRes osOk ec read_len resp rid data_len).1.isOk
          = true →
        (HidDevice.read d st openRes osOk ec read_len resp rid data_len).2
          = false) ∧
      ((data.length + 1) % U32MOD ≤ d.output_report_byte_length →
        (st = true ∨ openRes = .success) →
        set_output_report d st openRes false ec rid data =
          (.fail (.win32 ec), true) ∧
        HidDevice.write d st openRes false ec write_len rid data =
          (.fail (.win32 ec), true)) ∧
      ((data_len + 1) % U32MOD ≤ d.input_report_byte_length →
        d.input_report_byte_length ≠ 0 →
        (st = true ∨ openRes = .success) →
        get_input_report d st openRes false ec resp rid data_len =
          (.fail (.win32 ec), true) ∧
        HidDevice.read d st openRes false ec read_len resp rid data_len =
          (.fail (.win32 ec), true)) ∧
      ((data_len + 1) % U32MOD ≤ d.feature_report_byte_length →
        d.feature_report_byte_length ≠ 0 →
        (st = true ∨ openRes = .success) →
        get_feature_report d st openRes false ec resp rid data_len =
          (.fail (.win32 ec), true)) := by
  intro d st osOk openRes ec rid data_len read_len write_len data resp
  refine ⟨set_output_report_ok_closed, get_input_report_ok_closed,
    get_feature_report_ok_closed, write_ok_closed, read_ok_closed,
    ?_, ?_, ?_⟩
  · intro hle hacq
    exact ⟨os_fail_open_set_output hle hacq, os_fail_open_write hle hacq⟩
  · intro hle hip hacq
    exact ⟨os_fail_open_get_input hle hip hacq, os_fail_open_read hle hip hacq⟩
  · intro hle hip hacq
    exact os_fail_open_get_feature hle hip hacq

/-- Witness for C1 (amended) on `dev65`: a successful
`set_output_report` exits with the handle closed, and a failing
`HidD_GetInputReport` exits with it open. -/
theorem C1_handle_close_amended_witness :
    (set_output_report dev65 false .success true 0 0 [1]).2 = false ∧
    get_input_report dev65 true .success false 3 [] 0 5 =
      (.fail (.win32 3), true) :=
  ⟨(C1_handle_close_amended dev65 false true .success 0 0 5 1 1 [1] []).1
      (by decide),
   ((C1_handle_close_amended dev65 true false .success 3 0 5 1 1 [1] []).2.2.2.2.2.2.1
      (by decide) (by decide) (Or.inl rfl)).1⟩

end UsbManager


